import Mathlib

/-!
Verification of the streaming transcript core of `ollama-streamlit-app.py`.

The embedding follows the source:
* a chat turn is a `{role, content}` record (`Turn`);
* `st.session_state.messages` is a `Transcript` (a `List Turn`);
* `stream_chat` drives the model client's fragment sequence, concatenating
  each delta onto a buffer, returning the buffer on clean termination and
  re-raising the cause on any fault (buffer discarded);
* one rerun of `main` with a submitted prompt appends the user turn, runs
  `stream_chat` under the last-role-is-user guard, annotates the response
  with an optional duration suffix, and folds it into the history through
  the dedup guard (success) or appends `str(e)` directly (failure).
-/

inductive Role where
  | user
  | assistant
  deriving DecidableEq, Repr

/-- The opposite chat role. -/
def Role.other : Role → Role
  | Role.user => Role.assistant
  | Role.assistant => Role.user

structure Turn where
  role : Role
  content : String
  deriving DecidableEq, Repr

/-- `st.session_state.messages`: the ordered chat history. -/
abbrev Transcript := List Turn

/-- Role of the most recent turn (`messages[-1]["role"]`), `none` when empty. -/
def lastRole (t : Transcript) : Option Role :=
  t.getLast?.map Turn.role

/-- `st.session_state.messages.clear()` from the "Clear History" button. -/
def clear (t : Transcript) : Transcript := []

/-- The model client object built by `Ollama(model=model, request_timeout=120.0)`. -/
structure Ollama where
  model : String
  request_timeout : Nat

/-- `Ollama(model=model, request_timeout=120.0)` (line 41 of the source). -/
def mkLlm (model : String) : Ollama :=
  { model := model, request_timeout := 120 }

/-- Behaviour of the external model client's lazy fragment sequence: it
either terminates cleanly after delivering `frags` in order, or fails with
`cause` after delivering `frags`. -/
inductive StreamOutcome where
  | clean (frags : List String)
  | faulty (frags : List String) (cause : String)
  deriving DecidableEq, Repr

/-- The `for r in resp: response += r.delta` loop of `stream_chat`. -/
def streamLoop (response : String) : List String → String
  | [] => response
  | r :: rs => streamLoop (response ++ r) rs

/-- `stream_chat(model, messages)` (lines 25–57): builds the client,
accumulates the stream into `response`, returns it on success; on any
exception the buffer is discarded and the cause is re-raised (`raise e`). -/
def stream_chat (model : String) (stream : StreamOutcome) : Except String String :=
  let llm := mkLlm model
  match stream with
  | StreamOutcome.clean frags => Except.ok (streamLoop "" frags)
  | StreamOutcome.faulty _ cause => Except.error cause

/-- The duration formatting of lines 126–129: when `show_duration == "Yes"`,
suffix `"\n\nDuration: {duration:.2f} seconds"` (the rendered number is the
external clock's `durStr`); otherwise the response is unchanged. -/
def annotate (response : String) (show_duration : String) (durStr : String) : String :=
  if show_duration = "Yes" then
    response ++ "\n\nDuration: " ++ durStr ++ " seconds"
  else
    response

/-- The dedup guard of lines 131–133:
`if not messages or messages[-1]["role"] != "assistant": append(...)`. -/
def commit (msgs : Transcript) (content : String) : Transcript :=
  if msgs = [] ∨ lastRole msgs ≠ some Role.assistant then
    msgs ++ [⟨Role.assistant, content⟩]
  else
    msgs

/-- Lines 113–150 of `main`: under the guard `messages[-1]["role"] == "user"`,
run `stream_chat`; on success annotate and `commit`; on exception append one
assistant turn whose content is `str(e)`. The boolean records whether the
model invocation ran. -/
def respond (model show_duration durStr : String) (msgs : Transcript)
    (stream : StreamOutcome) : Transcript × Bool :=
  if lastRole msgs = some Role.user then
    match stream_chat model stream with
    | Except.ok response => (commit msgs (annotate response show_duration durStr), true)
    | Except.error cause => (msgs ++ [⟨Role.assistant, cause⟩], true)
  else
    (msgs, false)

/-- One Streamlit rerun of `main` (lines 97–150): if a prompt was submitted
(`if prompt:` — truthy, i.e. non-empty), append the user turn and respond;
otherwise the history is untouched and no invocation starts. -/
def stepI (model show_duration durStr : String) (msgs : Transcript)
    (prompt : Option String) (stream : StreamOutcome) : Transcript × Bool :=
  match prompt with
  | none => (msgs, false)
  | some p =>
      if p = "" then (msgs, false)
      else respond model show_duration durStr (msgs ++ [⟨Role.user, p⟩]) stream

/-- The transcript after one rerun of `main`. -/
def step (model show_duration durStr : String) (msgs : Transcript)
    (prompt : Option String) (stream : StreamOutcome) : Transcript :=
  (stepI model show_duration durStr msgs prompt stream).1

/-- One user submission: the prompt (or `none` when nothing was entered),
the clock's rendered duration, and the client's stream behaviour. -/
structure Submission where
  prompt : Option String
  durStr : String
  stream : StreamOutcome

/-- A whole session: fold the reruns over an initially empty history. -/
def runSession (model show_duration : String) (subs : List Submission) : Transcript :=
  subs.foldl (fun t s => step model show_duration s.durStr t s.prompt s.stream) []

/-- Spec-side right-fold concatenation `f1 ++ f2 ++ ... ++ fn`. -/
def concatFrags : List String → String
  | [] => ""
  | f :: fs => f ++ concatFrags fs

/-- Roles of a transcript, in order. -/
def rolesOf (t : Transcript) : List Role :=
  t.map Turn.role

/-- `altFrom r l`: the roles in `l` strictly alternate, starting with `r`. -/
def altFrom : Role → List Role → Bool
  | _, [] => true
  | r, x :: xs => decide (x = r) && altFrom (Role.other r) xs

-- ## Helper lemmas

theorem Role.other_other (r : Role) : r.other.other = r := by
  cases r <;> rfl

theorem streamLoop_eq (acc : String) (fs : List String) :
    streamLoop acc fs = acc ++ concatFrags fs := by
  induction fs generalizing acc with
  | nil => simp [streamLoop, concatFrags]
  | cons f fs ih =>
      simp [streamLoop, concatFrags, ih, String.append_assoc]

theorem lastRole_concat (t : Transcript) (x : Turn) :
    lastRole (t ++ [x]) = some x.role := by
  simp [lastRole, List.getLast?_concat]

theorem altFrom_append (xs : List Role) (r : Role) (ys : List Role) :
    altFrom r (xs ++ ys) =
      (altFrom r xs && altFrom (if xs.length % 2 = 0 then r else r.other) ys) := by
  induction xs generalizing r with
  | nil => simp [altFrom]
  | cons x xs ih =>
      simp only [List.cons_append, altFrom, Bool.and_assoc, List.append_eq]
      rw [ih (Role.other r)]
      rcases Nat.mod_two_eq_zero_or_one xs.length with h | h <;>
        simp [List.length_cons, Nat.add_mod, h, Role.other_other]

/-- The session invariant: roles alternate starting from `user`, the length
is even, and user and assistant turns are in bijection. -/
def settledInv (t : Transcript) : Prop :=
  altFrom Role.user (rolesOf t) = true ∧
    (rolesOf t).length % 2 = 0 ∧
    (rolesOf t).count Role.user = (rolesOf t).count Role.assistant

theorem step_cases (model sd d : String) (t : Transcript) (p : Option String)
    (s : StreamOutcome) :
    step model sd d t p s = t ∨
      ∃ q x, step model sd d t p s = t ++ [⟨Role.user, q⟩, ⟨Role.assistant, x⟩] := by
  match p with
  | none => exact Or.inl rfl
  | some q =>
      by_cases hq : q = ""
      · exact Or.inl (by simp [step, stepI, hq])
      · refine Or.inr ?_
        have hlast : lastRole (t ++ [⟨Role.user, q⟩]) = some Role.user :=
          lastRole_concat t ⟨Role.user, q⟩
        match s with
        | StreamOutcome.clean frags =>
            refine ⟨q, annotate (streamLoop "" frags) sd d, ?_⟩
            simp [step, stepI, hq, respond, stream_chat, hlast, commit]
        | StreamOutcome.faulty frags cause =>
            refine ⟨q, cause, ?_⟩
            simp [step, stepI, hq, respond, stream_chat, hlast]

theorem settledInv_append (t : Transcript) (q x : String)
    (h : settledInv t) :
    settledInv (t ++ [⟨Role.user, q⟩, ⟨Role.assistant, x⟩]) := by
  obtain ⟨halt, hlen, hcount⟩ := h
  have hroles : rolesOf (t ++ [⟨Role.user, q⟩, ⟨Role.assistant, x⟩]) =
      rolesOf t ++ [Role.user, Role.assistant] := by
    simp [rolesOf]
  refine ⟨?_, ?_, ?_⟩
  · rw [hroles, altFrom_append, hlen]
    simp [halt, altFrom, Role.other]
  · rw [hroles]
    simp [List.length_append]
    omega
  · rw [hroles]
    simp [List.count_append, hcount]

theorem settledInv_step (model sd d : String) (t : Transcript) (p : Option String)
    (s : StreamOutcome) (h : settledInv t) :
    settledInv (step model sd d t p s) := by
  rcases step_cases model sd d t p s with heq | ⟨q, x, heq⟩
  · rw [heq]; exact h
  · rw [heq]; exact settledInv_append t q x h

theorem runSession_inv (model sd : String) (subs : List Submission) :
    settledInv (runSession model sd subs) := by
  suffices h : ∀ t, settledInv t →
      settledInv (subs.foldl (fun t s => step model sd s.durStr t s.prompt s.stream) t) by
    exact h [] ⟨rfl, rfl, rfl⟩
  induction subs with
  | nil => intro t ht; exact ht
  | cons s subs ih =>
      intro t ht
      exact ih _ (settledInv_step model sd s.durStr t s.prompt s.stream ht)

theorem step_clean (model sd d p : String) (t : Transcript) (frags : List String)
    (hp : p ≠ "") :
    step model sd d t (some p) (StreamOutcome.clean frags) =
      t ++ [⟨Role.user, p⟩, ⟨Role.assistant, annotate (concatFrags frags) sd d⟩] := by
  have hlast : lastRole (t ++ [⟨Role.user, p⟩]) = some Role.user :=
    lastRole_concat t ⟨Role.user, p⟩
  simp [step, stepI, hp, respond, stream_chat, hlast, commit, streamLoop_eq]

theorem step_faulty (model sd d p cause : String) (t : Transcript)
    (frags : List String) (hp : p ≠ "") :
    step model sd d t (some p) (StreamOutcome.faulty frags cause) =
      t ++ [⟨Role.user, p⟩, ⟨Role.assistant, cause⟩] := by
  have hlast : lastRole (t ++ [⟨Role.user, p⟩]) = some Role.user :=
    lastRole_concat t ⟨Role.user, p⟩
  simp [step, stepI, hp, respond, stream_chat, hlast]

-- ## Claims

/-- C1. For any finite fragment sequence `f1..fn` delivered in order by the
model client, the `finalText` returned by `stream_chat` is exactly the
concatenation `f1 ++ f2 ++ ... ++ fn`: no reordering, no loss. -/
theorem stream_chat_order_preservation (model : String) (frags : List String) :
    stream_chat model (StreamOutcome.clean frags) = Except.ok (concatFrags frags) := by
  simp [stream_chat, streamLoop_eq]

/-- C2. For every sequence of user submissions, after each submission's
outcome (stream success or failure) settles, the transcript's roles strictly
alternate starting with `user`, and there is exactly one assistant turn per
user turn. -/
theorem transcript_alternation (model sd : String) (subs : List Submission) :
    altFrom Role.user (rolesOf (runSession model sd subs)) = true ∧
      (rolesOf (runSession model sd subs)).count Role.user =
        (rolesOf (runSession model sd subs)).count Role.assistant := by
  obtain ⟨h1, _, h3⟩ := runSession_inv model sd subs
  exact ⟨h1, h3⟩

/-- C3 counterexample. The assistant turn appended on a stream failure
carries the raw cause text: with cause `"boom"` the committed content is
`"boom"` itself, and changing the cause to `"zap"` changes the committed
content, so the failure message is neither fixed nor free of the raw
internal error text. -/
theorem failure_turn_not_fixed_cex :
    (step "m" "No" "0" [] (some "hi") (StreamOutcome.faulty [] "boom")).getLast? =
      some ⟨Role.assistant, "boom"⟩ ∧
    (step "m" "No" "0" [] (some "hi") (StreamOutcome.faulty [] "boom")).getLast? ≠
      (step "m" "No" "0" [] (some "hi") (StreamOutcome.faulty [] "zap")).getLast? := by
  decide

/-- C3 amended. On any fault during model invocation or streaming, exactly
one assistant turn is appended to the transcript, but its content is the
stringified triggering cause (the raw error text), not a fixed user-safe
message. -/
theorem failure_turn_raw_cause (model sd d p cause : String) (frags : List String)
    (t : Transcript) (hp : p ≠ "") :
    (step model sd d t (some p) (StreamOutcome.faulty frags cause)).getLast? =
      some ⟨Role.assistant, cause⟩ ∧
    (step model sd d t (some p) (StreamOutcome.faulty frags cause)).length =
      t.length + 2 := by
  rw [step_faulty model sd d p cause t frags hp]
  constructor
  · rw [show t ++ [(⟨Role.user, p⟩ : Turn), ⟨Role.assistant, cause⟩] =
        (t ++ [⟨Role.user, p⟩]) ++ [⟨Role.assistant, cause⟩] from by simp]
    exact List.getLast?_concat _
  · simp

theorem failure_turn_raw_cause_witness :
    (step "m" "No" "0" [] (some "hi") (StreamOutcome.faulty ["He"] "boom")).getLast? =
      some ⟨Role.assistant, "boom"⟩ ∧
    (step "m" "No" "0" [] (some "hi") (StreamOutcome.faulty ["He"] "boom")).length = 2 :=
  failure_turn_raw_cause "m" "No" "0" "hi" "boom" ["He"] [] (by decide)

/-- C4 counterexample. On the empty transcript (whose last role is not
`user`), `commit` is not a no-op: it appends an assistant turn, because the
source guard tests `messages[-1]["role"] != "assistant"` (with an empty
transcript passing the guard), not `== "user"`. -/
theorem commit_empty_appends_cex :
    commit [] "x" = [⟨Role.assistant, "x"⟩] ∧ commit [] "x" ≠ [] := by
  decide

/-- C4 amended. When the last turn is an assistant turn, `commit` is a
no-op; when the transcript is empty or the last turn is a user turn,
`commit` appends the assistant turn; and committing twice after one
successful commit appends exactly one assistant turn, not two. -/
theorem commit_dedup_guard (t : Transcript) (c c' : String) :
    (lastRole t = some Role.assistant → commit t c = t) ∧
    (lastRole t = some Role.user → commit t c = t ++ [⟨Role.assistant, c⟩]) ∧
    commit ([] : Transcript) c = [⟨Role.assistant, c⟩] ∧
    commit (commit t c) c' = commit t c := by
  refine ⟨?_, ?_, by simp [commit], ?_⟩
  · intro h
    have ht : t ≠ [] := by
      intro he
      rw [he] at h
      simp [lastRole] at h
    simp [commit, h, ht]
  · intro h
    simp [commit, h]
  · by_cases hc : t = [] ∨ lastRole t ≠ some Role.assistant
    · have h1 : commit t c = t ++ [⟨Role.assistant, c⟩] := by
        simp [commit, hc]
      rw [h1]
      have h2 : lastRole (t ++ [⟨Role.assistant, c⟩]) = some Role.assistant :=
        lastRole_concat t _
      simp [commit, h2]
    · have h1 : commit t c = t := by
        unfold commit
        rw [if_neg hc]
      rw [h1]
      unfold commit
      rw [if_neg hc]

theorem commit_dedup_guard_witness :
    commit [⟨Role.user, "hi"⟩, ⟨Role.assistant, "ok"⟩] "again" =
      [⟨Role.user, "hi"⟩, ⟨Role.assistant, "ok"⟩] ∧
    commit [⟨Role.user, "hi"⟩] "ok" = [⟨Role.user, "hi"⟩, ⟨Role.assistant, "ok"⟩] :=
  ⟨(commit_dedup_guard [⟨Role.user, "hi"⟩, ⟨Role.assistant, "ok"⟩] "again" "x").1
      (by decide),
   (commit_dedup_guard [⟨Role.user, "hi"⟩] "ok" "x").2.1 (by decide)⟩

/-- C5. If the fragment sequence fails after producing `f1..fk`,
`stream_chat` discards its buffer and raises a stream failure carrying the
triggering cause (no partial buffer reaches the caller), and the transcript
gains no partial-text turn: exactly the user turn and one failure turn are
appended. -/
theorem failure_atomicity (model sd d p cause : String) (frags : List String)
    (t : Transcript) (hp : p ≠ "") :
    stream_chat model (StreamOutcome.faulty frags cause) = Except.error cause ∧
    step model sd d t (some p) (StreamOutcome.faulty frags cause) =
      t ++ [⟨Role.user, p⟩, ⟨Role.assistant, cause⟩] :=
  ⟨rfl, step_faulty model sd d p cause t frags hp⟩

theorem failure_atomicity_witness :
    stream_chat "m" (StreamOutcome.faulty ["pa", "rt"] "boom") = Except.error "boom" ∧
    step "m" "Yes" "1.00" [] (some "hi") (StreamOutcome.faulty ["pa", "rt"] "boom") =
      [⟨Role.user, "hi"⟩, ⟨Role.assistant, "boom"⟩] :=
  failure_atomicity "m" "Yes" "1.00" "hi" "boom" ["pa", "rt"] [] (by decide)

/-- C6. With duration reporting enabled and fragments `["He", "llo"]` the
committed assistant content is `"Hello"` suffixed with the duration
annotation; with reporting disabled it is exactly `"Hello"`. -/
theorem duration_annotation_toggle (model d : String) :
    step model "Yes" d [] (some "hi") (StreamOutcome.clean ["He", "llo"]) =
      [⟨Role.user, "hi"⟩,
       ⟨Role.assistant, "Hello\n\nDuration: " ++ d ++ " seconds"⟩] ∧
    step model "No" d [] (some "hi") (StreamOutcome.clean ["He", "llo"]) =
      [⟨Role.user, "hi"⟩, ⟨Role.assistant, "Hello"⟩] := by
  have hc : concatFrags ["He", "llo"] = "Hello" := by decide
  have hd : ("Hello" : String) ++ "\n\nDuration: " = "Hello\n\nDuration: " := by decide
  constructor
  · rw [step_clean model "Yes" d "hi" [] ["He", "llo"] (by decide), hc]
    simp [annotate, hd]
  · rw [step_clean model "No" d "hi" [] ["He", "llo"] (by decide), hc]
    simp [annotate]

/-- C7. A cleanly terminating stream with zero fragments yields the empty
string as a successful result, and the transcript `[{user, "hi"}]` becomes
`[{user, "hi"}, {assistant, ""}]` (with the duration annotation appended
when reporting is enabled). -/
theorem empty_stream_success (model d : String) :
    stream_chat model (StreamOutcome.clean []) = Except.ok "" ∧
    step model "No" d [] (some "hi") (StreamOutcome.clean []) =
      [⟨Role.user, "hi"⟩, ⟨Role.assistant, ""⟩] ∧
    step model "Yes" d [] (some "hi") (StreamOutcome.clean []) =
      [⟨Role.user, "hi"⟩, ⟨Role.assistant, "\n\nDuration: " ++ d ++ " seconds"⟩] := by
  refine ⟨rfl, ?_, ?_⟩
  · rw [step_clean model "No" d "hi" [] [] (by decide)]
    simp [annotate, concatFrags]
  · rw [step_clean model "Yes" d "hi" [] [] (by decide)]
    simp [annotate, concatFrags]

/-- C8 counterexample. The request timeout configured by `stream_chat` is
not 240: the client is built with `request_timeout=120.0`. -/
theorem request_timeout_not_240_cex : (mkLlm "llama3").request_timeout ≠ 240 := by
  decide

/-- C8 amended. `stream_chat` configures the model client with a fixed
request timeout of 120 time-units (within the observed 120 to 240 range),
and a timeout, like any exception, surfaces as a stream failure carrying
the cause rather than a silent truncation. -/
theorem request_timeout_120 (model cause : String) (frags : List String) :
    (mkLlm model).request_timeout = 120 ∧
    120 ≤ (mkLlm model).request_timeout ∧ (mkLlm model).request_timeout ≤ 240 ∧
    stream_chat model (StreamOutcome.faulty frags cause) = Except.error cause :=
  ⟨rfl, by simp [mkLlm], by simp [mkLlm], rfl⟩

/-- C9. `clear` empties the transcript and is idempotent: afterwards the
turn list is empty and the last role is `none`, and a subsequent user
submission starts a fresh alternation sequence beginning with a user turn. -/
theorem clear_resets (t : Transcript) (model sd d p : String) (s : StreamOutcome) :
    clear t = [] ∧ clear (clear t) = clear t ∧ lastRole (clear t) = none ∧
    (p ≠ "" → (step model sd d (clear t) (some p) s).head?.map Turn.role =
      some Role.user) := by
  refine ⟨rfl, rfl, rfl, ?_⟩
  intro hp
  rcases s with frags | ⟨frags, cause⟩
  · rw [show clear t = [] from rfl, step_clean model sd d p [] frags hp]
    simp
  · rw [show clear t = [] from rfl, step_faulty model sd d p cause [] frags hp]
    simp

theorem clear_resets_witness :
    (step "m" "Yes" "1.00" (clear [⟨Role.user, "x"⟩]) (some "hi")
        (StreamOutcome.clean [])).head?.map Turn.role = some Role.user :=
  (clear_resets [⟨Role.user, "x"⟩] "m" "Yes" "1.00" "hi"
    (StreamOutcome.clean [])).2.2.2 (by decide)

/-- C10. The model invocation and any assistant append run only under the
guard that the transcript is non-empty with last role `user`: a rerun with
no prompt (or an empty one) leaves the transcript unchanged and starts no
invocation, a guard-time transcript ending in an assistant turn suppresses
both the invocation and any append, and whenever the invocation does run
the guard-time transcript was non-empty with last role `user`. -/
theorem guarded_invocation (model sd d : String) (t : Transcript) (s : StreamOutcome) :
    stepI model sd d t none s = (t, false) ∧
    stepI model sd d t (some "") s = (t, false) ∧
    (lastRole t = some Role.assistant → respond model sd d t s = (t, false)) ∧
    ((respond model sd d t s).2 = true → t ≠ [] ∧ lastRole t = some Role.user) := by
  refine ⟨rfl, by simp [stepI], ?_, ?_⟩
  · intro h
    simp [respond, h]
  · intro h
    by_cases hg : lastRole t = some Role.user
    · refine ⟨?_, hg⟩
      intro he
      rw [he] at hg
      simp [lastRole] at hg
    · exfalso
      simp [respond, hg] at h

theorem guarded_invocation_witness :
    respond "m" "Yes" "1.00" [⟨Role.assistant, "a"⟩] (StreamOutcome.clean []) =
      ([⟨Role.assistant, "a"⟩], false) :=
  (guarded_invocation "m" "Yes" "1.00" [⟨Role.assistant, "a"⟩]
    (StreamOutcome.clean [])).2.2.1 (by decide)
